import Mathlib

/-!
Verification of the token resolution and caching subsystem of the
starknet-agentic repository (TokenService in
`packages/starknet-mcp-server/src/services/tokenService.ts`, address and
batch-input helpers in `packages/starknet-mcp-server/src/utils.ts`).

The development is a shallow embedding: JavaScript `Map`s become
association lists with in-place update (preserving insertion order, as a
JS `Map` does), `Date.now()` becomes an explicit `now : Nat` argument,
exceptions become `Except`, and the two external effectful collaborators
(the avnu remote metadata fetch and the on-chain decimals call) become
explicit oracle arguments of type `Except String _` describing the
outcome that call would have had.
-/

deriving instance DecidableEq for Except

namespace StarknetTokens

/-- Lowercase hexadecimal digit character for a digit value below 16,
mirroring the digit characters produced by JavaScript `BigInt.toString(16)`
(`0`-`9` then `a`-`f`). -/
def hexDigitChar (d : Nat) : Char :=
  if d < 10 then Char.ofNat (48 + d) else Char.ofNat (87 + d)

/-- Numeric value of a digit character, accepting `0`-`9`, `a`-`f` and
`A`-`F`, mirroring the digit characters accepted by JavaScript `BigInt`
string parsing. -/
def hexCharVal (c : Char) : Option Nat :=
  if 48 ≤ c.toNat ∧ c.toNat ≤ 57 then some (c.toNat - 48)
  else if 97 ≤ c.toNat ∧ c.toNat ≤ 102 then some (c.toNat - 87)
  else if 65 ≤ c.toNat ∧ c.toNat ≤ 70 then some (c.toNat - 55)
  else none

/-- One step of most-significant-digit-first accumulation while parsing a
digit string: fails on a character that is not a digit of the base. -/
def pstep (base : Nat) (acc : Option Nat) (c : Char) : Option Nat :=
  acc.bind fun a => (hexCharVal c).bind fun d =>
    if d < base then some (base * a + d) else none

/-- Parse a digit string in the given base; the empty digit string is
rejected (JavaScript `BigInt("0x")` throws). -/
def parseBase (base : Nat) (cs : List Char) : Option Nat :=
  if cs.isEmpty then none else cs.foldl (pstep base) (some 0)

/-- JavaScript `StringToBigInt` on a character list, as used by
starknet.js `toBigInt` on address strings: an optional `0x`/`0X` (or
binary/octal) radix marker followed by digits, plain decimal otherwise;
the empty string denotes zero.  (Surrounding whitespace handling is not
modelled; the repository never passes whitespace-padded addresses.) -/
def toBigIntStr : List Char → Option Nat
  | [] => some 0
  | '0' :: c :: rest =>
    if c = 'x' ∨ c = 'X' then parseBase 16 rest
    else if c = 'b' ∨ c = 'B' then parseBase 2 rest
    else if c = 'o' ∨ c = 'O' then parseBase 8 rest
    else parseBase 10 ('0' :: c :: rest)
  | cs => parseBase 10 cs

/-- Little-endian base-16 digits of a number, with explicit fuel (64
digits suffice for any value below `16 ^ 64`). -/
def hexDigitsAux : Nat → Nat → List Nat
  | 0, _ => []
  | _ + 1, 0 => []
  | fuel + 1, n => n % 16 :: hexDigitsAux fuel (n / 16)

/-- Value of a little-endian base-16 digit list. -/
def valLE : List Nat → Nat
  | [] => 0
  | d :: ds => d + 16 * valLE ds

/-- The 64 hexadecimal characters of a field element, zero padded at the
front, as produced by starknet.js `addAddressPadding`
(`toHex(address).padStart(64, "0")`). -/
def toHex64 (n : Nat) : List Char :=
  let ds := hexDigitsAux 64 n
  List.replicate (64 - ds.length) '0' ++ (ds.map hexDigitChar).reverse

/-- Upper bound accepted for a Starknet address by starknet.js
`validateAndParseAddress` (`ADDR_BOUND = 2^251 - MAX_STORAGE_ITEM_SIZE`,
checked inclusively). -/
def ADDR_BOUND : Nat := 2 ^ 251 - 256

/-- Error classes of the resolution layer.  `invalidAddress` is the
normalizer failure (starknet.js rejection of a malformed or out-of-range
address), the remaining constructors carry the data interpolated into the
`Error` messages thrown by the TypeScript code. -/
inductive TokenError where
  | invalidAddress (input : String)
  | unknownToken (input : String)
  | fetchAddressFailed (address : String) (cause : String)
  | fetchSymbolFailed (symbol : String) (cause : String)
  | noProvider (address : String)
  | chainCallFailed (cause : String)
  | invalidInput (message : String)
deriving DecidableEq

/-- Rendering of each error as the message string thrown by the code. -/
def errMessage : TokenError → String
  | .invalidAddress i => "Invalid Address: " ++ i
  | .unknownToken i => "Unknown token: " ++ i
  | .fetchAddressFailed a cause => "Failed to fetch token by address " ++ a ++ ": " ++ cause
  | .fetchSymbolFailed s cause => "Failed to fetch token by symbol \"" ++ s ++ "\": " ++ cause
  | .noProvider a => "Token " ++ a ++ " not found and no RPC provider configured for on-chain fallback"
  | .chainCallFailed cause => cause
  | .invalidInput m => m

/-- starknet.js `validateAndParseAddress`: convert the string to a
number, check the address range, and render it as `0x` plus 64 padded
hexadecimal characters. -/
def validateAndParseAddress (address : String) : Except TokenError String :=
  match toBigIntStr address.data with
  | none => .error (.invalidAddress address)
  | some v =>
    if v ≤ ADDR_BOUND then .ok ⟨'0' :: 'x' :: toHex64 v⟩
    else .error (.invalidAddress address)

/-- ASCII lowercase of a string (JavaScript `toLowerCase` on the ASCII
strings handled by the service). -/
def toLowerStr (s : String) : String := ⟨s.data.map Char.toLower⟩

/-- ASCII uppercase of a string (JavaScript `toUpperCase` on the ASCII
strings handled by the service). -/
def toUpperStr (s : String) : String := ⟨s.data.map Char.toUpper⟩

/-- Model of `normalizeAddress` from `utils.ts`:
`validateAndParseAddress(address).toLowerCase()`. -/
def normalizeAddress (address : String) : Except TokenError String :=
  (validateAndParseAddress address).map toLowerStr

/-- JavaScript `startsWith("0x")` (case sensitive, as in the source). -/
def startsWith0x (s : String) : Bool :=
  match s.data with
  | '0' :: 'x' :: _ => true
  | _ => false

/-- Truncated display form of a normalized address built by
`cacheOnChainDecimals`: `slice(0, 10) + "..." + slice(-6)`. -/
def shortAddr (n : String) : String :=
  ⟨n.data.take 10 ++ ('.' :: '.' :: '.' :: []) ++ n.data.drop (n.data.length - 6)⟩

/-! Parsing and rendering lemmas for the address normalizer. -/

lemma hexCharVal_hexDigitChar (d : Nat) (h : d < 16) :
    hexCharVal (hexDigitChar d) = some d := by
  interval_cases d <;> decide

lemma toLower_hexDigitChar (d : Nat) (h : d < 16) :
    Char.toLower (hexDigitChar d) = hexDigitChar d := by
  interval_cases d <;> decide

lemma hexDigitsAux_lt (fuel n : Nat) : ∀ d ∈ hexDigitsAux fuel n, d < 16 := by
  induction fuel generalizing n with
  | zero => simp [hexDigitsAux]
  | succ fuel ih =>
    match n with
    | 0 => simp [hexDigitsAux]
    | m + 1 =>
      intro d hd
      simp only [hexDigitsAux, List.mem_cons] at hd
      rcases hd with rfl | hd
      · exact Nat.mod_lt _ (by omega)
      · exact ih _ d hd

lemma hexDigitsAux_length (fuel n : Nat) : (hexDigitsAux fuel n).length ≤ fuel := by
  induction fuel generalizing n with
  | zero => simp [hexDigitsAux]
  | succ fuel ih =>
    match n with
    | 0 => simp [hexDigitsAux]
    | m + 1 =>
      simpa [hexDigitsAux] using ih ((m + 1) / 16)

lemma valLE_hexDigitsAux (fuel n : Nat) (h : n < 16 ^ fuel) :
    valLE (hexDigitsAux fuel n) = n := by
  induction fuel generalizing n with
  | zero => simp [Nat.pow_zero] at h; simp [hexDigitsAux, valLE, h]
  | succ fuel ih =>
    match n with
    | 0 => simp [hexDigitsAux, valLE]
    | m + 1 =>
      have hdiv : (m + 1) / 16 < 16 ^ fuel := by
        rw [Nat.div_lt_iff_lt_mul (by omega)]
        calc m + 1 < 16 ^ (fuel + 1) := h
        _ = 16 ^ fuel * 16 := by ring
      simp only [hexDigitsAux, valLE, ih _ hdiv]
      omega

lemma foldl_pstep_none (base : Nat) (cs : List Char) :
    List.foldl (pstep base) none cs = none := by
  induction cs with
  | nil => rfl
  | cons c cs ih => simpa [pstep] using ih

lemma foldl_pstep_bad (base : Nat) (cs : List Char) (c : Char)
    (hbad : hexCharVal c = none) (hmem : c ∈ cs) (acc : Option Nat) :
    List.foldl (pstep base) acc cs = none := by
  induction cs generalizing acc with
  | nil => simp at hmem
  | cons hd tl ih =>
    rcases List.mem_cons.mp hmem with rfl | hmem
    · have hstep : pstep base acc c = none := by
        cases acc <;> simp [pstep, hbad]
      simp only [List.foldl_cons, hstep]
      exact foldl_pstep_none base tl
    · exact ih hmem _

lemma foldl_pstep_zeros (k : Nat) :
    List.foldl (pstep 16) (some 0) (List.replicate k '0') = some 0 := by
  induction k with
  | zero => rfl
  | succ k ih =>
    have : pstep 16 (some 0) '0' = some 0 := by decide
    simpa [List.replicate_succ, this] using ih

lemma foldl_pstep_map (ds : List Nat) (a : Nat) (h : ∀ d ∈ ds, d < 16) :
    List.foldl (pstep 16) (some a) (ds.map hexDigitChar) =
      some (List.foldl (fun x d => 16 * x + d) a ds) := by
  induction ds generalizing a with
  | nil => rfl
  | cons d ds ih =>
    have hd : d < 16 := h d (List.mem_cons_self d ds)
    have hstep : pstep 16 (some a) (hexDigitChar d) = some (16 * a + d) := by
      simp [pstep, hexCharVal_hexDigitChar d hd, hd]
    simp only [List.map_cons, List.foldl_cons, hstep]
    exact ih (16 * a + d) fun x hx => h x (List.mem_cons_of_mem _ hx)

lemma foldl_natstep_reverse (ds : List Nat) (a : Nat) :
    List.foldl (fun x d => 16 * x + d) a ds.reverse =
      a * 16 ^ ds.length + valLE ds := by
  induction ds generalizing a with
  | nil => simp [valLE]
  | cons d ds ih =>
    simp only [List.reverse_cons, List.foldl_append, List.foldl_cons,
      List.foldl_nil, ih, valLE, List.length_cons]
    ring

lemma toHex64_length (v : Nat) : (toHex64 v).length = 64 := by
  have h := hexDigitsAux_length 64 v
  simp only [toHex64, List.length_append, List.length_replicate,
    List.length_reverse, List.length_map]
  omega

lemma toHex64_chars (v : Nat) :
    ∀ c ∈ toHex64 v, Char.toLower c = c ∧ (hexCharVal c).isSome := by
  intro c hc
  simp only [toHex64, List.mem_append, List.mem_replicate, List.mem_reverse,
    List.mem_map] at hc
  rcases hc with ⟨-, rfl⟩ | ⟨d, hd, rfl⟩
  · exact ⟨by decide, by decide⟩
  · have hlt := hexDigitsAux_lt 64 v d hd
    exact ⟨toLower_hexDigitChar d hlt,
      by simp [hexCharVal_hexDigitChar d hlt]⟩

lemma addr_bound_lt_pow : ADDR_BOUND < 16 ^ 64 := by
  have h1 : (2 : Nat) ^ 251 ≤ 2 ^ 256 := Nat.pow_le_pow_right (by omega) (by omega)
  have h2 : (16 : Nat) ^ 64 = 2 ^ 256 := by
    rw [show (16 : Nat) = 2 ^ 4 by norm_num, ← Nat.pow_mul]
  simp only [ADDR_BOUND, h2]
  omega

lemma parseBase16_toHex64 (v : Nat) (hv : v ≤ ADDR_BOUND) :
    parseBase 16 (toHex64 v) = some v := by
  have hlen : (toHex64 v).length = 64 := toHex64_length v
  have hnil : toHex64 v ≠ [] := by
    intro h
    rw [h] at hlen
    exact absurd hlen (by decide)
  have hne : (toHex64 v).isEmpty = false := by
    cases h : toHex64 v with
    | nil => exact absurd h hnil
    | cons a l => rfl
  have hlt : v < 16 ^ 64 := lt_of_le_of_lt hv addr_bound_lt_pow
  have hdig := hexDigitsAux_lt 64 v
  have hrevdig : ∀ d ∈ (hexDigitsAux 64 v).reverse, d < 16 := by
    intro d hd; exact hdig d (List.mem_reverse.mp hd)
  simp only [parseBase, hne, Bool.false_eq_true, if_false, toHex64]
  rw [List.foldl_append, foldl_pstep_zeros,
    show ((hexDigitsAux 64 v).map hexDigitChar).reverse
        = ((hexDigitsAux 64 v).reverse).map hexDigitChar by
      simp [List.map_reverse],
    foldl_pstep_map _ _ hrevdig,
    foldl_natstep_reverse (hexDigitsAux 64 v) 0,
    valLE_hexDigitsAux 64 v hlt]
  simp
  intro h0 heq
  rw [heq] at h0
  simp at h0

/-! Structural lemmas about `normalizeAddress`. -/

lemma map_id_of_fixed {l : List Char} {f : Char → Char}
    (h : ∀ c ∈ l, f c = c) : l.map f = l := by
  induction l with
  | nil => rfl
  | cons a l ih =>
    simp only [List.map_cons, h a (List.mem_cons_self a l),
      ih fun c hc => h c (List.mem_cons_of_mem _ hc)]

lemma normalizeAddress_ok_elim {s y : String}
    (h : normalizeAddress s = .ok y) :
    ∃ v, toBigIntStr s.data = some v ∧ v ≤ ADDR_BOUND ∧
      y.data = '0' :: 'x' :: toHex64 v := by
  unfold normalizeAddress validateAndParseAddress at h
  cases hp : toBigIntStr s.data with
  | none => rw [hp] at h; simp [Except.map] at h
  | some v =>
    rw [hp] at h
    by_cases hb : v ≤ ADDR_BOUND
    · refine ⟨v, rfl, hb, ?_⟩
      simp only [hb, if_true, Except.map, Except.ok.injEq] at h
      subst h
      show (toLowerStr ⟨'0' :: 'x' :: toHex64 v⟩).data = '0' :: 'x' :: toHex64 v
      simp only [toLowerStr, List.map_cons]
      rw [show Char.toLower '0' = '0' by decide, show Char.toLower 'x' = 'x' by decide,
        map_id_of_fixed fun c hc => (toHex64_chars v c hc).1]
    · simp [hb, Except.map] at h

lemma normalizeAddress_ok_intro {s : String} {v : Nat}
    (hp : toBigIntStr s.data = some v) (hb : v ≤ ADDR_BOUND) :
    normalizeAddress s = .ok ⟨'0' :: 'x' :: toHex64 v⟩ := by
  unfold normalizeAddress validateAndParseAddress
  rw [hp]
  simp only [hb, if_true, Except.map]
  congr 1
  show toLowerStr ⟨'0' :: 'x' :: toHex64 v⟩ = ⟨'0' :: 'x' :: toHex64 v⟩
  simp only [toLowerStr, List.map_cons]
  rw [show Char.toLower '0' = '0' by decide, show Char.toLower 'x' = 'x' by decide,
    map_id_of_fixed fun c hc => (toHex64_chars v c hc).1]

lemma normalizeAddress_error_elim {s : String} {e : TokenError}
    (h : normalizeAddress s = .error e) : e = .invalidAddress s := by
  unfold normalizeAddress validateAndParseAddress at h
  cases hp : toBigIntStr s.data with
  | none =>
    rw [hp] at h
    simpa [Except.map] using h.symm
  | some v =>
    rw [hp] at h
    by_cases hb : v ≤ ADDR_BOUND
    · simp [hb, Except.map] at h
    · simp only [hb, if_false, Except.map, Except.error.injEq] at h
      exact h.symm

/-- Idempotence core: a successful output of the normalizer re-normalizes
to itself. -/
lemma normalize_idem {x y : String} (h : normalizeAddress x = .ok y) :
    normalizeAddress y = .ok y := by
  obtain ⟨v, _, hb, hdata⟩ := normalizeAddress_ok_elim h
  have hy : y = ⟨'0' :: 'x' :: toHex64 v⟩ := by
    rw [← hdata]
  subst hy
  refine normalizeAddress_ok_intro ?_ hb
  show toBigIntStr ('0' :: 'x' :: toHex64 v) = some v
  simp only [toBigIntStr, if_true, eq_self_iff_true, true_or, if_pos]
  exact parseBase16_toHex64 v hb

lemma normalizeAddress_ok_shape {s y : String}
    (h : normalizeAddress s = .ok y) :
    ∃ ds, y.data = '0' :: 'x' :: ds ∧ ds.length = 64 ∧
      ∀ c ∈ ds, (hexCharVal c).isSome := by
  obtain ⟨v, _, _, hdata⟩ := normalizeAddress_ok_elim h
  exact ⟨toHex64 v, hdata, toHex64_length v,
    fun c hc => (toHex64_chars v c hc).2⟩

lemma normalizeAddress_ok_ne_empty {s y : String}
    (h : normalizeAddress s = .ok y) : y ≠ "" := by
  obtain ⟨ds, hdata, -, -⟩ := normalizeAddress_ok_shape h
  intro hy
  subst hy
  simp at hdata

lemma normalizeAddress_ok_startsWith0x {s y : String}
    (h : normalizeAddress s = .ok y) : startsWith0x y = true := by
  obtain ⟨ds, hdata, -, -⟩ := normalizeAddress_ok_shape h
  simp [startsWith0x, hdata]

/-- The truncated display form of a normalized address fails to parse
back: it still carries the `0x` marker but contains literal dots. -/
lemma normalize_shortAddr_error {s y : String}
    (h : normalizeAddress s = .ok y) :
    normalizeAddress (shortAddr y) = .error (.invalidAddress (shortAddr y)) := by
  obtain ⟨v, hvp, hvb, hdata⟩ := normalizeAddress_ok_elim h
  set ds := toHex64 v with hds
  have hshort : (shortAddr y).data =
      '0' :: 'x' :: (ds.take 8 ++ ('.' :: '.' :: '.' :: []) ++ y.data.drop (y.data.length - 6)) := by
    simp only [shortAddr, hdata]
    simp [List.take_cons]
  have hdot : '.' ∈ ds.take 8 ++ ('.' :: '.' :: '.' :: []) ++ y.data.drop (y.data.length - 6) := by
    refine List.mem_append.mpr (Or.inl ?_)
    exact List.mem_append.mpr (Or.inr (List.mem_cons_self _ _))
  have hparse : toBigIntStr (shortAddr y).data = none := by
    rw [hshort]
    show toBigIntStr ('0' :: 'x' :: _) = none
    simp only [toBigIntStr, eq_self_iff_true, true_or, if_pos]
    unfold parseBase
    split
    · rfl
    · exact foldl_pstep_bad 16 _ '.' (by decide) hdot _
  unfold normalizeAddress validateAndParseAddress
  rw [hparse]
  rfl

/-! Data model: avnu `Token`, `CachedToken`, the static registry, and the
`TokenService` state. -/

/-- A token record as returned by the avnu SDK (`fetchTokenByAddress` /
`fetchVerifiedTokenBySymbol`).  `lastDailyVolumeUsd` is a JS number kept
opaque to all resolution logic; it is modelled as an integer. -/
structure RemoteToken where
  address : String
  symbol : String
  name : String
  decimals : Nat
  logoUri : Option String
  lastDailyVolumeUsd : Int
  tags : List String
deriving DecidableEq

/-- Model of `CachedToken` from `types/token.ts`: an avnu token extended with the
`isStatic` protection flag and the `lastUpdated` write timestamp (epoch
milliseconds). -/
structure CachedToken where
  address : String
  symbol : String
  name : String
  decimals : Nat
  logoUri : Option String
  lastDailyVolumeUsd : Int
  tags : List String
  isStatic : Bool
  lastUpdated : Nat
deriving DecidableEq

/-- Modelled from the spec: `TOKEN_TTL_MS` lives in `types/token.ts`,
which is not part of the provided sources; the spec fixes the TTL at 24
hours. -/
def TOKEN_TTL_MS : Nat := 86400000

/-- Expiry check (TTL 24h); static tokens never expire.  JavaScript
computes `Date.now() - lastUpdated > TTL` with a signed subtraction; a
`lastUpdated` in the future yields a negative difference there and a
truncated zero here, both below the TTL, so the embedding agrees. -/
def isExpired (t : CachedToken) (now : Nat) : Bool :=
  if t.isStatic then false else decide (TOKEN_TTL_MS < now - t.lastUpdated)

/-- The static token registry (`STATIC_TOKEN_DATA` expanded with
`STATIC_TOKEN_DEFAULTS`, i.e. `STATIC_TOKENS`). -/
def STATIC_TOKENS : List CachedToken :=
  [ { address := "0x049d36570d4e46f48e99674bd3fcc84644ddd6b96f7c741b1562b82f9e004dc7",
      symbol := "ETH", name := "Ether", decimals := 18,
      logoUri := none, lastDailyVolumeUsd := 0, tags := ["Verified"],
      isStatic := true, lastUpdated := 0 },
    { address := "0x04718f5a0fc34cc1af16a1cdee98ffb20c31f5cd61d6ab07201858f4287c938d",
      symbol := "STRK", name := "Starknet Token", decimals := 18,
      logoUri := none, lastDailyVolumeUsd := 0, tags := ["Verified"],
      isStatic := true, lastUpdated := 0 },
    { address := "0x053c91253bc9682c04929ca02ed00b3e423f6710d2ee7e0d5ebb06f3ecf368a8",
      symbol := "USDC", name := "USD Coin", decimals := 6,
      logoUri := none, lastDailyVolumeUsd := 0, tags := ["Verified"],
      isStatic := true, lastUpdated := 0 },
    { address := "0x068f5c6a61780768455de69077e07e89787839bf8166decfbf92b645209c0fb8",
      symbol := "USDT", name := "Tether USD", decimals := 6,
      logoUri := none, lastDailyVolumeUsd := 0, tags := ["Verified"],
      isStatic := true, lastUpdated := 0 } ]

/-- Cache pairs produced for the static registry by `loadStaticTokens`:
normalized address paired with the record re-keyed to that address. -/
def staticPairs : List (String × CachedToken) :=
  STATIC_TOKENS.filterMap fun t =>
    (normalizeAddress t.address).toOption.map fun n => (n, { t with address := n })

/-- Symbol-index pairs produced for the static registry by
`loadStaticTokens`: uppercased symbol paired with normalized address. -/
def staticSymPairs : List (String × String) :=
  STATIC_TOKENS.filterMap fun t =>
    (normalizeAddress t.address).toOption.map fun n => (toUpperStr t.symbol, n)

/-- Lookup in an association-list model of a JavaScript `Map`. -/
def mget {α : Type} : List (String × α) → String → Option α
  | [], _ => none
  | p :: rest, k => if p.1 = k then some p.2 else mget rest k

/-- Model of `Map.set`: replace the value at an existing key in place (a JS `Map`
keeps the original insertion position), append to the end otherwise. -/
def mset {α : Type} : List (String × α) → String → α → List (String × α)
  | [], k, v => [(k, v)]
  | p :: rest, k, v => if p.1 = k then (k, v) :: rest else p :: mset rest k v

/-- The `TokenService` state: the token cache keyed by normalized
address, the symbol index keyed by uppercased symbol, and whether an RPC
provider has been injected (`setProvider`).  The avnu base URL only flows
into the oracle calls and is not part of the model state. -/
structure TokenService where
  cache : List (String × CachedToken)
  symbolIndex : List (String × String)
  hasProvider : Bool
deriving DecidableEq

/-- Events recording which external tier `getDecimalsAsync` consulted. -/
inductive CallEvent where
  | remoteFetch
  | onChainRead
deriving DecidableEq

/-- Model of `loadStaticTokens`, run once by the constructor: normalize each
static address, keying both the cache and the symbol index. -/
def loadStaticTokens : Except TokenError TokenService :=
  STATIC_TOKENS.foldlM
    (fun s t =>
      match normalizeAddress t.address with
      | .error e => .error e
      | .ok n =>
        .ok { cache := mset s.cache n { t with address := n },
              symbolIndex := mset s.symbolIndex (toUpperStr t.symbol) n,
              hasProvider := s.hasProvider })
    { cache := [], symbolIndex := [], hasProvider := false }

/-- Model of `setProvider`: inject the RPC provider for the on-chain fallback. -/
def TokenService.setProvider (s : TokenService) : TokenService :=
  { s with hasProvider := true }

/-- Decision of `addToCache` whether to write the symbol index: written
unless the current holder of the symbol exists (JS truthiness: a present
non-empty address) and is a static cache entry; the cache is consulted
after the cache write (`cache'`). -/
def shouldWriteSymbol (idx : List (String × String))
    (cache' : List (String × CachedToken)) (upperSymbol : String) : Bool :=
  match mget idx upperSymbol with
  | none => true
  | some ea =>
    if ea = "" then true
    else
      match mget cache' ea with
      | some holder => ! holder.isStatic
      | none => true

/-- The record written by `addToCache` (`toCachedToken` re-normalizes the
same address string, then `cached.address = normalized` re-keys it, so
its address field is exactly `normalized`). -/
def mkCachedRecord (t : RemoteToken) (isStatic : Bool) (now : Nat)
    (normalized : String) : CachedToken :=
  { address := normalized, symbol := t.symbol, name := t.name,
    decimals := t.decimals, logoUri := t.logoUri,
    lastDailyVolumeUsd := t.lastDailyVolumeUsd, tags := t.tags,
    isStatic := isStatic, lastUpdated := now }

/-- Continuation of `addToCache` past the static-protection guard: write
the cache, then conditionally the symbol index. -/
def addToCacheCont (s : TokenService) (t : RemoteToken) (isStatic : Bool)
    (now : Nat) (normalized : String) : CachedToken × TokenService :=
  (mkCachedRecord t isStatic now normalized,
    { cache := mset s.cache normalized (mkCachedRecord t isStatic now normalized),
      symbolIndex :=
        if shouldWriteSymbol s.symbolIndex
            (mset s.cache normalized (mkCachedRecord t isStatic now normalized))
            (toUpperStr t.symbol) then
          mset s.symbolIndex (toUpperStr t.symbol) normalized
        else s.symbolIndex,
      hasProvider := s.hasProvider })

/-- Model of `addToCache`: normalize the incoming address; never overwrite a
static token (return the existing record unchanged); otherwise write the
record and update the symbol index unless the symbol is held by a static
token. -/
def TokenService.addToCache (s : TokenService) (t : RemoteToken)
    (isStatic : Bool) (now : Nat) :
    Except TokenError (CachedToken × TokenService) :=
  match normalizeAddress t.address with
  | .error e => .error e
  | .ok normalized =>
    match mget s.cache normalized with
    | some existing =>
      if existing.isStatic then .ok (existing, s)
      else .ok (addToCacheCont s t isStatic now normalized)
    | none => .ok (addToCacheCont s t isStatic now normalized)

/-- Shared tail of `resolveSymbol`: hex-shaped input is normalized and
passed through, anything else is an unknown token. -/
def resolveSymbolRest (symbolOrAddress : String) : Except TokenError String :=
  if startsWith0x symbolOrAddress then normalizeAddress symbolOrAddress
  else .error (.unknownToken symbolOrAddress)

/-- Model of `resolveSymbol`: symbol-index lookup of the uppercased input (JS
truthiness: an empty-string index value is falsy and falls through), then
hex pass-through, else `Unknown token`. -/
def TokenService.resolveSymbol (s : TokenService) (symbolOrAddress : String) :
    Except TokenError String :=
  match mget s.symbolIndex (toUpperStr symbolOrAddress) with
  | some indexed =>
    if indexed = "" then resolveSymbolRest symbolOrAddress else .ok indexed
  | none => resolveSymbolRest symbolOrAddress

/-- Cache-only lookup used by `getDecimals` and `getTokenInfo`: a missing
or expired record is a miss. -/
def freshLookup (s : TokenService) (n : String) (now : Nat) : Option CachedToken :=
  match mget s.cache n with
  | some c => if isExpired c now then none else some c
  | none => none

/-- Model of `getDecimals`: synchronous, cache-only decimals lookup keyed by the
normalized address. -/
def TokenService.getDecimals (s : TokenService) (address : String) (now : Nat) :
    Except TokenError (Option Nat) :=
  match normalizeAddress address with
  | .error e => .error e
  | .ok n => .ok ((freshLookup s n now).map CachedToken.decimals)

/-- Model of `getTokenInfo`: synchronous cache lookup by address or symbol. -/
def TokenService.getTokenInfo (s : TokenService) (addressOrSymbol : String)
    (now : Nat) : Except TokenError (Option CachedToken) :=
  if startsWith0x addressOrSymbol then
    match normalizeAddress addressOrSymbol with
    | .error e => .error e
    | .ok n => .ok (freshLookup s n now)
  else
    match mget s.symbolIndex (toUpperStr addressOrSymbol) with
    | some addr => if addr = "" then .ok none else .ok (freshLookup s addr now)
    | none => .ok none

/-- Model of `getTokenByAddress`: cached fresh record, else fetch from avnu
(`remote` is the outcome that fetch would have) and cache it; any error
of the fetch-and-cache tier is wrapped as a fetch failure naming the
queried address.  The boolean records whether the remote source was
consulted. -/
def TokenService.getTokenByAddress (s : TokenService) (address : String)
    (now : Nat) (remote : Except String RemoteToken) :
    Except TokenError (CachedToken × TokenService) × Bool :=
  match normalizeAddress address with
  | .error e => (.error e, false)
  | .ok n =>
    match mget s.cache n with
    | some cached =>
      if isExpired cached now then
        match remote with
        | .error msg => (.error (.fetchAddressFailed address msg), true)
        | .ok t =>
          match s.addToCache t false now with
          | .ok r => (.ok r, true)
          | .error e => (.error (.fetchAddressFailed address (errMessage e)), true)
      else (.ok (cached, s), false)
    | none =>
      match remote with
      | .error msg => (.error (.fetchAddressFailed address msg), true)
      | .ok t =>
        match s.addToCache t false now with
        | .ok r => (.ok r, true)
        | .error e => (.error (.fetchAddressFailed address (errMessage e)), true)

/-- Model of `getTokenBySymbol`: cached fresh record behind the symbol index, else
fetch a verified token from avnu and cache it; errors are wrapped naming
the queried symbol. -/
def TokenService.getTokenBySymbol (s : TokenService) (symbol : String)
    (now : Nat) (remote : Except String RemoteToken) :
    Except TokenError (CachedToken × TokenService) × Bool :=
  let fetch : Except TokenError (CachedToken × TokenService) × Bool :=
    match remote with
    | .error msg => (.error (.fetchSymbolFailed symbol msg), true)
    | .ok t =>
      match s.addToCache t false now with
      | .ok r => (.ok r, true)
      | .error e => (.error (.fetchSymbolFailed symbol (errMessage e)), true)
  match mget s.symbolIndex (toUpperStr symbol) with
  | some addr =>
    if addr = "" then fetch
    else
      match mget s.cache addr with
      | some cached => if isExpired cached now then fetch else (.ok (cached, s), false)
      | none => fetch
  | none => fetch

/-- Model of `resolveSymbolAsync`: synchronous resolution first; on any failure a
non-hex input falls back to the verified-symbol fetch, while a hex-shaped
input fails with `Unknown token`. -/
def TokenService.resolveSymbolAsync (s : TokenService) (symbolOrAddress : String)
    (now : Nat) (remote : Except String RemoteToken) :
    Except TokenError (String × TokenService) × Bool :=
  match s.resolveSymbol symbolOrAddress with
  | .ok addr => (.ok (addr, s), false)
  | .error _ =>
    if startsWith0x symbolOrAddress then
      (.error (.unknownToken symbolOrAddress), false)
    else
      match s.getTokenBySymbol symbolOrAddress now remote with
      | (.ok (t, s'), f) => (.ok (t.address, s'), f)
      | (.error e, f) => (.error e, f)

/-- The minimal dynamic record built by `cacheOnChainDecimals`: symbol is
a truncated-address display form, name is `Unknown Token`. -/
def minimalOnChainRecord (n : String) (decimals now : Nat) : CachedToken :=
  { address := n, symbol := shortAddr n, name := "Unknown Token",
    decimals := decimals, logoUri := none, lastDailyVolumeUsd := 0,
    tags := [], isStatic := false, lastUpdated := now }

/-- Model of `cacheOnChainDecimals`: cache a minimal dynamic record for decimals
read on-chain, never overwriting an existing entry. -/
def TokenService.cacheOnChainDecimals (s : TokenService) (address : String)
    (decimals now : Nat) : Except TokenError TokenService :=
  match normalizeAddress address with
  | .error e => .error e
  | .ok n =>
    if (mget s.cache n).isSome then .ok s
    else .ok { s with cache := mset s.cache n (minimalOnChainRecord n decimals now) }

/-- Model of `getDecimalsAsync`: three-tier fallback, cache then avnu then
on-chain.  `remote` and `chain` are the outcomes the avnu fetch and the
on-chain decimals call would have; the event list records which external
tiers ran, in order. -/
def TokenService.getDecimalsAsync (s : TokenService) (address : String)
    (now : Nat) (remote : Except String RemoteToken)
    (chain : Except String Nat) :
    Except TokenError (Nat × TokenService) × List CallEvent :=
  match s.getDecimals address now with
  | .error e => (.error e, [])
  | .ok (some d) => (.ok (d, s), [])
  | .ok none =>
    match s.getTokenByAddress address now remote with
    | (.ok (t, s'), f) =>
      (.ok (t.decimals, s'), if f then [.remoteFetch] else [])
    | (.error _, f) =>
      let ev := if f then [CallEvent.remoteFetch] else []
      if s.hasProvider = false then (.error (.noProvider address), ev)
      else
        match chain with
        | .error msg => (.error (.chainCallFailed msg), ev ++ [.onChainRead])
        | .ok d =>
          match s.cacheOnChainDecimals address d now with
          | .ok s' => (.ok (d, s'), ev ++ [.onChainRead])
          | .error e => (.error e, ev ++ [.onChainRead])

/-- Model of `clearDynamicCache`: drop every non-static cache entry, then drop
every symbol-index entry whose address is no longer cached. -/
def TokenService.clearDynamicCache (s : TokenService) : TokenService :=
  let cache' := s.cache.filter fun p => p.2.isStatic
  { s with cache := cache',
           symbolIndex := s.symbolIndex.filter fun p => (mget cache' p.2).isSome }

/-- Constant `MAX_BATCH_TOKENS` from `utils.ts`. -/
def MAX_BATCH_TOKENS : Nat := 200

/-- Element-wise mapping with first-error propagation, the behaviour of
JavaScript `Array.map` over a throwing function. -/
def mapExcept (f : String → Except TokenError String) :
    List String → Except TokenError (List String)
  | [] => .ok []
  | x :: xs =>
    match f x with
    | .error e => .error e
    | .ok y =>
      match mapExcept f xs with
      | .error e => .error e
      | .ok ys => .ok (y :: ys)

/-- Number of distinct elements of a list (`new Set(l).size`). -/
def distinctLen : List String → Nat
  | [] => 0
  | x :: xs => (if x ∈ xs then 0 else 1) + distinctLen xs

/-- Model of `validateTokensInput` from `utils.ts`: reject an empty batch and an
oversized batch, resolve each identifier through the service's
`resolveSymbol` (via `resolveTokenAddress`), and reject the batch if the
resolved addresses contain duplicates. -/
def validateTokensInput (s : TokenService) (tokens : List String) :
    Except TokenError (List String) :=
  if tokens.length = 0 then .error (.invalidInput "At least one token is required")
  else if MAX_BATCH_TOKENS < tokens.length then
    .error (.invalidInput "Maximum 200 tokens per request")
  else
    match mapExcept (s.resolveSymbol) tokens with
    | .error e => .error e
    | .ok tokenAddresses =>
      if distinctLen tokenAddresses ≠ tokens.length then
        .error (.invalidInput "Duplicate tokens in request")
      else .ok tokenAddresses

/-! Lemmas about the association-list `Map` model. -/

lemma mget_mset_self {α : Type} (m : List (String × α)) (k : String) (v : α) :
    mget (mset m k v) k = some v := by
  induction m with
  | nil => simp [mget, mset]
  | cons p rest ih =>
    by_cases h : p.1 = k
    · simp [mget, mset, h]
    · simp [mget, mset, h, ih]

lemma mget_mset_ne {α : Type} (m : List (String × α)) (k k' : String) (v : α)
    (h : k' ≠ k) : mget (mset m k v) k' = mget m k' := by
  have hkk : ¬k = k' := fun he => h he.symm
  induction m with
  | nil =>
    simp only [mset, mget]
    rw [if_neg hkk]
  | cons p rest ih =>
    by_cases hp : p.1 = k
    · simp only [mset, hp, if_true, mget]
      rw [if_neg hkk, if_neg hkk]
    · simp only [mset, hp, if_false, mget]
      by_cases hk : p.1 = k'
      · simp [hk]
      · simp [hk, ih]

lemma mem_mset_sub {α : Type} {m : List (String × α)} {k : String} {v : α}
    {p : String × α} (h : p ∈ mset m k v) : p = (k, v) ∨ p ∈ m := by
  induction m with
  | nil => simpa [mset] using h
  | cons q rest ih =>
    by_cases hq : q.1 = k
    · simp only [mset, hq, if_true, List.mem_cons] at h
      rcases h with h | h
      · exact Or.inl h
      · exact Or.inr (List.mem_cons_of_mem _ h)
    · simp only [mset, hq, if_false, List.mem_cons] at h
      rcases h with h | h
      · exact Or.inr (h ▸ List.mem_cons_self _ _)
      · rcases ih h with h' | h'
        · exact Or.inl h'
        · exact Or.inr (List.mem_cons_of_mem _ h')

lemma mem_mset_of_ne {α : Type} {m : List (String × α)} {k : String} {v : α}
    {p : String × α} (h : p ∈ m) (hk : p.1 ≠ k) : p ∈ mset m k v := by
  induction m with
  | nil => simp at h
  | cons q rest ih =>
    rcases List.mem_cons.mp h with rfl | h
    · simp [mset, hk, List.mem_cons]
    · by_cases hq : q.1 = k
      · simp [mset, hq, List.mem_cons_of_mem _ h]
      · simp [mset, hq, List.mem_cons, ih h]

lemma mget_eq_none_iff {α : Type} (m : List (String × α)) (k : String) :
    mget m k = none ↔ k ∉ m.map Prod.fst := by
  induction m with
  | nil => simp [mget]
  | cons p rest ih =>
    simp only [mget, List.map_cons, List.mem_cons]
    by_cases h : p.1 = k
    · simp [h]
    · simp only [h, if_false, ih]
      constructor
      · intro hn hk
        rcases hk with hk | hk
        · exact h hk.symm
        · exact hn hk
      · intro hn hk
        exact hn (Or.inr hk)

lemma mset_eq_append {α : Type} {m : List (String × α)} {k : String} (v : α)
    (h : mget m k = none) : mset m k v = m ++ [(k, v)] := by
  induction m with
  | nil => simp [mset]
  | cons p rest ih =>
    simp only [mget] at h
    by_cases hp : p.1 = k
    · simp [hp] at h
    · simp only [mset, hp, if_false, List.cons_append, List.cons.injEq, true_and]
      exact ih (by simpa [hp] using h)

lemma keys_mset_of_isSome {α : Type} {m : List (String × α)} {k : String}
    (v : α) (h : (mget m k).isSome) :
    (mset m k v).map Prod.fst = m.map Prod.fst := by
  induction m with
  | nil => simp [mget] at h
  | cons p rest ih =>
    by_cases hp : p.1 = k
    · simp [mset, hp]
    · simp only [mget, hp, if_false] at h
      simp [mset, hp, ih h]

/-- Key uniqueness of an association list, as holds for a JS `Map`. -/
abbrev keysNodup {α : Type} (m : List (String × α)) : Prop :=
  (m.map Prod.fst).Nodup

lemma keysNodup_mset {α : Type} {m : List (String × α)} {k : String} (v : α)
    (h : keysNodup m) : keysNodup (mset m k v) := by
  cases hk : mget m k with
  | some w =>
    unfold keysNodup
    rw [keys_mset_of_isSome v (by simp [hk])]
    exact h
  | none =>
    unfold keysNodup
    rw [mset_eq_append v hk, List.map_append]
    simp only [List.map_cons, List.map_nil]
    rw [List.nodup_append]
    exact ⟨h, List.nodup_singleton _,
      by simpa using fun hkm => (mget_eq_none_iff m k).mp hk hkm⟩

lemma mget_of_mem {α : Type} {m : List (String × α)} {p : String × α}
    (hn : keysNodup m) (h : p ∈ m) : mget m p.1 = some p.2 := by
  induction m with
  | nil => simp at h
  | cons q rest ih =>
    unfold keysNodup at hn
    simp only [List.map_cons, List.nodup_cons] at hn
    rcases List.mem_cons.mp h with rfl | h
    · simp [mget]
    · have hne : q.1 ≠ p.1 := by
        intro he
        exact hn.1 (he ▸ List.mem_map_of_mem Prod.fst h)
      simp only [mget, hne, if_false]
      exact ih hn.2 h

lemma mem_of_mget {α : Type} {m : List (String × α)} {k : String} {v : α}
    (h : mget m k = some v) : (k, v) ∈ m := by
  induction m with
  | nil => simp [mget] at h
  | cons q rest ih =>
    by_cases hq : q.1 = k
    · simp only [mget, hq, if_true, Option.some.injEq] at h
      subst h
      have : q = (k, q.2) := by
        cases q
        simp_all
      rw [← this]
      exact List.mem_cons_self _ _
    · simp only [mget, hq, if_false] at h
      exact List.mem_cons_of_mem _ (ih h)

lemma keysNodup_filter {α : Type} (P : String × α → Bool)
    {m : List (String × α)} (h : keysNodup m) : keysNodup (m.filter P) := by
  unfold keysNodup at *
  exact h.sublist ((List.filter_sublist m).map Prod.fst)

/-! Reachable service states and the service invariant. -/

/-- One mutation of the service state.  These are exactly the primitive
cache/index writers of the class: every public operation mutates state
only through `addToCache` with `isStatic = false` (both fetch methods),
`cacheOnChainDecimals`, `clearDynamicCache`, or `setProvider`, so any
state a sequence of public calls can produce is reachable by these
steps. -/
inductive Step : TokenService → TokenService → Prop where
  | addDynamic (s : TokenService) (t : RemoteToken) (now : Nat)
      (c : CachedToken) (s' : TokenService) :
      s.addToCache t false now = .ok (c, s') → Step s s'
  | onChain (s : TokenService) (addr : String) (d now : Nat) (s' : TokenService) :
      s.cacheOnChainDecimals addr d now = .ok s' → Step s s'
  | clear (s : TokenService) : Step s s.clearDynamicCache
  | provider (s : TokenService) : Step s s.setProvider

/-- A state is reachable when it arises from the constructor state
(`loadStaticTokens` on the empty state) by finitely many steps. -/
def Reachable (s : TokenService) : Prop :=
  ∃ s₀, loadStaticTokens = .ok s₀ ∧ Relation.ReflTransGen Step s₀ s

/-- The constructor state. -/
def initState : TokenService :=
  { cache := staticPairs, symbolIndex := staticSymPairs, hasProvider := false }

lemma loadStaticTokens_eq : loadStaticTokens = .ok initState := by decide

lemma reachable_initState : Reachable initState :=
  ⟨initState, loadStaticTokens_eq, Relation.ReflTransGen.refl⟩

/-- The service invariant: keys are unique; every cache key is a
normalized address keying a record carrying that address; the static
cache entries are exactly the registry images, which are always present;
symbol-index values are normalized addresses; and the registry's symbol
mappings are always present. -/
def Inv (s : TokenService) : Prop :=
  keysNodup s.cache ∧
  keysNodup s.symbolIndex ∧
  (∀ p ∈ s.cache, normalizeAddress p.1 = .ok p.1 ∧ p.2.address = p.1) ∧
  (∀ p ∈ s.cache, p.2.isStatic = true → p ∈ staticPairs) ∧
  (∀ q ∈ staticPairs, q ∈ s.cache) ∧
  (∀ p ∈ s.symbolIndex, normalizeAddress p.2 = .ok p.2) ∧
  (∀ q ∈ staticSymPairs, q ∈ s.symbolIndex)

lemma staticPairs_static : ∀ q ∈ staticPairs, q.2.isStatic = true := by decide

lemma staticPairs_length : staticPairs.length = STATIC_TOKENS.length := by decide

lemma staticSym_links :
    ∀ q ∈ staticSymPairs, ∃ p ∈ staticPairs, p.1 = q.2 := by decide

lemma inv_initState : Inv initState := by
  refine ⟨?_, ?_, ?_, ?_, ?_, ?_, ?_⟩ <;> decide

/-! Preservation of the invariant by every step. -/

lemma addToCache_ok_elim {s : TokenService} {t : RemoteToken} {b : Bool}
    {now : Nat} {c : CachedToken} {s' : TokenService}
    (h : s.addToCache t b now = .ok (c, s')) :
    ∃ n, normalizeAddress t.address = .ok n ∧
      ((∃ e, mget s.cache n = some e ∧ e.isStatic = true ∧ c = e ∧ s' = s) ∨
        ((mget s.cache n = none ∨
            ∃ e, mget s.cache n = some e ∧ e.isStatic = false) ∧
          addToCacheCont s t b now n = (c, s'))) := by
  unfold TokenService.addToCache at h
  split at h
  · exact absurd h (by simp)
  · rename_i n heq
    refine ⟨n, heq, ?_⟩
    split at h
    · rename_i existing hc
      split at h
      · rename_i hs
        have hpair := Except.ok.inj h
        exact Or.inl ⟨existing, hc, hs, (congrArg Prod.fst hpair).symm,
          (congrArg Prod.snd hpair).symm⟩
      · rename_i hs
        exact Or.inr ⟨Or.inr ⟨existing, hc, by simpa using hs⟩, Except.ok.inj h⟩
    · rename_i hc
      exact Or.inr ⟨Or.inl hc, Except.ok.inj h⟩

lemma shouldWriteSymbol_eq_false {idx : List (String × String)}
    {cache' : List (String × CachedToken)} {U a : String} {holder : CachedToken}
    (hga : mget idx U = some a) (hane : a ≠ "")
    (hgr : mget cache' a = some holder) (hrs : holder.isStatic = true) :
    shouldWriteSymbol idx cache' U = false := by
  unfold shouldWriteSymbol
  rw [hga]
  simp only [if_neg hane]
  rw [hgr]
  simp [hrs]

lemma inv_addToCacheCont {s : TokenService} {t : RemoteToken} {now : Nat}
    {n : String} {c : CachedToken} {s' : TokenService}
    (hn : normalizeAddress t.address = .ok n)
    (hc : mget s.cache n = none ∨ ∃ e, mget s.cache n = some e ∧ e.isStatic = false)
    (heq : addToCacheCont s t false now n = (c, s'))
    (hi : Inv s) : Inv s' := by
  obtain ⟨h1, h2, h3, h4, h5, h6, h7⟩ := hi
  have hnn : normalizeAddress n = .ok n := normalize_idem hn
  have hs' : s' = (addToCacheCont s t false now n).2 := by rw [heq]
  have hcache : s'.cache = mset s.cache n (mkCachedRecord t false now n) := by
    rw [hs']; rfl
  have hidx : s'.symbolIndex =
      (if shouldWriteSymbol s.symbolIndex
          (mset s.cache n (mkCachedRecord t false now n)) (toUpperStr t.symbol) then
        mset s.symbolIndex (toUpperStr t.symbol) n
      else s.symbolIndex) := by
    rw [hs']; rfl
  have hstatic_ne : ∀ q ∈ staticPairs, q.1 ≠ n := by
    intro q hq hqn
    have hget := mget_of_mem h1 (h5 q hq)
    rw [hqn] at hget
    rcases hc with hnone | ⟨e, he, hes⟩
    · rw [hnone] at hget; exact absurd hget (by simp)
    · rw [he] at hget
      have heq2 : e = q.2 := Option.some.inj hget
      rw [heq2] at hes
      rw [staticPairs_static q hq] at hes
      exact absurd hes (by simp)
  refine ⟨?_, ?_, ?_, ?_, ?_, ?_, ?_⟩
  · rw [hcache]; exact keysNodup_mset _ h1
  · rw [hidx]
    by_cases hw : shouldWriteSymbol s.symbolIndex
        (mset s.cache n (mkCachedRecord t false now n)) (toUpperStr t.symbol) = true
    · rw [if_pos hw]; exact keysNodup_mset _ h2
    · rw [if_neg hw]; exact h2
  · rw [hcache]
    intro p hp
    rcases mem_mset_sub hp with rfl | hp'
    · exact ⟨hnn, rfl⟩
    · exact h3 p hp'
  · rw [hcache]
    intro p hp hps
    rcases mem_mset_sub hp with rfl | hp'
    · exact absurd hps (by simp [mkCachedRecord])
    · exact h4 p hp' hps
  · rw [hcache]
    intro q hq
    exact mem_mset_of_ne (h5 q hq) (hstatic_ne q hq)
  · rw [hidx]
    by_cases hw : shouldWriteSymbol s.symbolIndex
        (mset s.cache n (mkCachedRecord t false now n)) (toUpperStr t.symbol) = true
    · rw [if_pos hw]
      intro p hp
      rcases mem_mset_sub hp with rfl | hp'
      · exact hnn
      · exact h6 p hp'
    · rw [if_neg hw]; exact h6
  · rw [hidx]
    by_cases hw : shouldWriteSymbol s.symbolIndex
        (mset s.cache n (mkCachedRecord t false now n)) (toUpperStr t.symbol) = true
    · rw [if_pos hw]
      intro q hq
      have hqidx := h7 q hq
      by_cases hU : q.1 = toUpperStr t.symbol
      · exfalso
        have hgetq : mget s.symbolIndex (toUpperStr t.symbol) = some q.2 := by
          rw [← hU]; exact mget_of_mem h2 hqidx
        have hane : q.2 ≠ "" := normalizeAddress_ok_ne_empty (h6 q hqidx)
        obtain ⟨p, hpS, hpA⟩ := staticSym_links q hq
        have hgetp : mget (mset s.cache n (mkCachedRecord t false now n)) q.2
            = some p.2 := by
          rw [← hpA, mget_mset_ne _ _ _ _ (hstatic_ne p hpS)]
          exact mget_of_mem h1 (h5 p hpS)
        rw [shouldWriteSymbol_eq_false hgetq hane hgetp
          (staticPairs_static p hpS)] at hw
        exact absurd hw (by simp)
      · exact mem_mset_of_ne hqidx hU
    · rw [if_neg hw]; exact h7

lemma cacheOnChain_ok_elim {s : TokenService} {addr : String} {d now : Nat}
    {s' : TokenService} (h : s.cacheOnChainDecimals addr d now = .ok s') :
    ∃ n, normalizeAddress addr = .ok n ∧
      (((mget s.cache n).isSome = true ∧ s' = s) ∨
        (mget s.cache n = none ∧
          s' = { s with cache := mset s.cache n (minimalOnChainRecord n d now) })) := by
  unfold TokenService.cacheOnChainDecimals at h
  split at h
  · exact absurd h (by simp)
  · rename_i n heq
    refine ⟨n, heq, ?_⟩
    split at h
    · rename_i hsome
      exact Or.inl ⟨hsome, (Except.ok.inj h).symm⟩
    · rename_i hnot
      refine Or.inr ⟨?_, (Except.ok.inj h).symm⟩
      cases hc : mget s.cache n with
      | none => rfl
      | some e =>
        rw [hc] at hnot
        exact absurd (rfl : (some e).isSome = true) hnot

lemma inv_onChain {s : TokenService} {addr : String} {d now : Nat}
    {s' : TokenService} (h : s.cacheOnChainDecimals addr d now = .ok s')
    (hi : Inv s) : Inv s' := by
  obtain ⟨n, hn, hcases⟩ := cacheOnChain_ok_elim h
  rcases hcases with ⟨-, rfl⟩ | ⟨hc, rfl⟩
  · exact hi
  obtain ⟨h1, h2, h3, h4, h5, h6, h7⟩ := hi
  have hnn : normalizeAddress n = .ok n := normalize_idem hn
  have hstatic_ne : ∀ q ∈ staticPairs, q.1 ≠ n := by
    intro q hq hqn
    have hget := mget_of_mem h1 (h5 q hq)
    rw [hqn, hc] at hget
    exact absurd hget (by simp)
  refine ⟨?_, h2, ?_, ?_, ?_, h6, h7⟩
  · exact keysNodup_mset _ h1
  · intro p hp
    rcases mem_mset_sub hp with rfl | hp'
    · exact ⟨hnn, rfl⟩
    · exact h3 p hp'
  · intro p hp hps
    rcases mem_mset_sub hp with rfl | hp'
    · exact absurd hps (by simp [minimalOnChainRecord])
    · exact h4 p hp' hps
  · intro q hq
    exact mem_mset_of_ne (h5 q hq) (hstatic_ne q hq)

lemma clearDynamicCache_cache (s : TokenService) :
    s.clearDynamicCache.cache = s.cache.filter (fun p => p.2.isStatic) := rfl

lemma clearDynamicCache_symbolIndex (s : TokenService) :
    s.clearDynamicCache.symbolIndex = s.symbolIndex.filter
      (fun p => (mget (s.cache.filter fun q => q.2.isStatic) p.2).isSome) := rfl

lemma inv_clear {s : TokenService} (hi : Inv s) : Inv s.clearDynamicCache := by
  obtain ⟨h1, h2, h3, h4, h5, h6, h7⟩ := hi
  refine ⟨?_, ?_, ?_, ?_, ?_, ?_, ?_⟩
  · rw [clearDynamicCache_cache]; exact keysNodup_filter _ h1
  · rw [clearDynamicCache_symbolIndex]; exact keysNodup_filter _ h2
  · rw [clearDynamicCache_cache]
    intro p hp; exact h3 p (List.mem_filter.mp hp).1
  · rw [clearDynamicCache_cache]
    intro p hp hps; exact h4 p (List.mem_filter.mp hp).1 hps
  · rw [clearDynamicCache_cache]
    intro q hq
    exact List.mem_filter.mpr ⟨h5 q hq, staticPairs_static q hq⟩
  · rw [clearDynamicCache_symbolIndex]
    intro p hp; exact h6 p (List.mem_filter.mp hp).1
  · rw [clearDynamicCache_symbolIndex]
    intro q hq
    refine List.mem_filter.mpr ⟨h7 q hq, ?_⟩
    obtain ⟨p, hpS, hpA⟩ := staticSym_links q hq
    have hpc' : p ∈ s.cache.filter (fun r => r.2.isStatic) :=
      List.mem_filter.mpr ⟨h5 p hpS, staticPairs_static p hpS⟩
    have hg := mget_of_mem (keysNodup_filter _ h1) hpc'
    rw [hpA] at hg
    simp [hg]

lemma inv_step {s s' : TokenService} (h : Step s s') (hi : Inv s) : Inv s' := by
  cases h with
  | addDynamic t now c s2 hadd =>
    obtain ⟨n, hn, hcases⟩ := addToCache_ok_elim hadd
    rcases hcases with ⟨e, he, hes, hce, rfl⟩ | ⟨hc, heq⟩
    · exact hi
    · exact inv_addToCacheCont hn hc heq hi
  | onChain addr d now s2 honc => exact inv_onChain honc hi
  | clear => exact inv_clear hi
  | provider => exact hi

lemma inv_reachable {s : TokenService} (h : Reachable s) : Inv s := by
  obtain ⟨s₀, h0, hr⟩ := h
  have h0' : initState = s₀ := Except.ok.inj (loadStaticTokens_eq.symm.trans h0)
  rw [← h0'] at hr
  clear h0 h0'
  induction hr with
  | refl => exact inv_initState
  | tail hpre hstep ih => exact inv_step hstep ih

/-! Operation-level helper lemmas. -/

lemma addToCache_error_elim {s : TokenService} {t : RemoteToken} {b : Bool}
    {now : Nat} {e : TokenError} (h : s.addToCache t b now = .error e) :
    normalizeAddress t.address = .error e := by
  unfold TokenService.addToCache at h
  split at h
  · rename_i e' heq
    rw [heq]
    rw [Except.error.inj h]
  · rename_i n heq
    split at h
    · split at h <;> exact absurd h (by simp)
    · exact absurd h (by simp)

lemma getDecimals_none_elim {s : TokenService} {addr n : String} {now : Nat}
    (hn : normalizeAddress addr = .ok n)
    (hd : s.getDecimals addr now = .ok none) : freshLookup s n now = none := by
  unfold TokenService.getDecimals at hd
  rw [hn] at hd
  have := Except.ok.inj hd
  exact Option.map_eq_none'.mp this

lemma getDecimals_of_freshLookup {s : TokenService} {addr n : String} {now : Nat}
    (hn : normalizeAddress addr = .ok n) :
    s.getDecimals addr now = .ok ((freshLookup s n now).map CachedToken.decimals) := by
  unfold TokenService.getDecimals
  rw [hn]

lemma freshLookup_none_elim {s : TokenService} {n : String} {now : Nat}
    (h : freshLookup s n now = none) :
    mget s.cache n = none ∨
      ∃ c, mget s.cache n = some c ∧ isExpired c now = true := by
  unfold freshLookup at h
  split at h
  · rename_i c hc
    split at h
    · rename_i hexp
      exact Or.inr ⟨c, hc, hexp⟩
    · exact absurd h (by simp)
  · rename_i hc
    exact Or.inl hc

lemma getTokenByAddress_miss {s : TokenService} {addr n : String} {now : Nat}
    (remote : Except String RemoteToken)
    (hn : normalizeAddress addr = .ok n) (hmiss : freshLookup s n now = none) :
    s.getTokenByAddress addr now remote =
      (match remote with
       | .error msg => (.error (.fetchAddressFailed addr msg), true)
       | .ok t =>
         match s.addToCache t false now with
         | .ok r => (.ok r, true)
         | .error e => (.error (.fetchAddressFailed addr (errMessage e)), true)) := by
  unfold TokenService.getTokenByAddress
  simp only [hn]
  rcases freshLookup_none_elim hmiss with hc | ⟨c, hc, hexp⟩
  · simp only [hc]
  · simp only [hc, hexp, if_true]

/-! C4: the `resolveSymbol` contract. -/

/-- C4.  `resolveSymbol`: a known (truthy) symbol-index entry for the
uppercased input is returned; otherwise a `0x`-prefixed input is passed
to the normalizer and its result returned whether or not the address is
cached; otherwise the call fails with `Unknown token` echoing the input;
and the uppercasing makes resolution case-insensitive, e.g. `ETH`, `eth`
and `Eth` all resolve to the same indexed address. -/
theorem resolveSymbol_contract :
    ∀ (s : TokenService) (input : String),
      (∀ a, mget s.symbolIndex (toUpperStr input) = some a → a ≠ "" →
        s.resolveSymbol input = .ok a) ∧
      (mget s.symbolIndex (toUpperStr input) = none → startsWith0x input = true →
        s.resolveSymbol input = normalizeAddress input) ∧
      (mget s.symbolIndex (toUpperStr input) = none → startsWith0x input = false →
        s.resolveSymbol input = .error (.unknownToken input)) ∧
      (∀ a, mget s.symbolIndex "ETH" = some a → a ≠ "" →
        s.resolveSymbol "ETH" = .ok a ∧ s.resolveSymbol "eth" = .ok a ∧
          s.resolveSymbol "Eth" = .ok a) := by
  intro s input
  have hcore : ∀ (x : String) (a : String),
      mget s.symbolIndex (toUpperStr x) = some a → a ≠ "" →
      s.resolveSymbol x = .ok a := by
    intro x a hg ha
    unfold TokenService.resolveSymbol
    rw [hg]
    show (if a = "" then resolveSymbolRest x else Except.ok a) = Except.ok a
    rw [if_neg ha]
  refine ⟨hcore input, ?_, ?_, ?_⟩
  · intro hg hx
    unfold TokenService.resolveSymbol
    rw [hg]
    unfold resolveSymbolRest
    rw [hx]
    rfl
  · intro hg hx
    unfold TokenService.resolveSymbol
    rw [hg]
    unfold resolveSymbolRest
    rw [hx]
    rfl
  · intro a hg ha
    refine ⟨hcore "ETH" a (by rwa [show toUpperStr "ETH" = "ETH" by decide]) ha,
      hcore "eth" a (by rwa [show toUpperStr "eth" = "ETH" by decide]) ha,
      hcore "Eth" a (by rwa [show toUpperStr "Eth" = "ETH" by decide]) ha⟩

/-- Canonical normalized ETH address used in witnesses. -/
def ethAddrN : String :=
  "0x049d36570d4e46f48e99674bd3fcc84644ddd6b96f7c741b1562b82f9e004dc7"

/-- Witness for C4 at the constructor state. -/
theorem resolveSymbol_contract_witness :
    initState.resolveSymbol "eth" = .ok ethAddrN ∧
      initState.resolveSymbol "0x123" = normalizeAddress "0x123" ∧
      initState.resolveSymbol "nope" = .error (.unknownToken "nope") := by
  refine ⟨?_, ?_, ?_⟩
  · exact ((resolveSymbol_contract initState "eth").2.2.2 ethAddrN (by decide)
      (by decide)).2.1
  · exact (resolveSymbol_contract initState "0x123").2.1 (by decide) (by decide)
  · exact (resolveSymbol_contract initState "nope").2.2.1 (by decide) (by decide)

/-! C5: propagation of `InvalidAddress`. -/

/-- C5 counterexample.  The claim states the normalizer's
`InvalidAddress` error is always surfaced as-is, in particular by
`resolveSymbolAsync`; but for the malformed hex input `0xzz` the
normalizer raises `InvalidAddress` and `resolveSymbolAsync` replaces it
with an `Unknown token` error. -/
theorem resolveSymbolAsync_masks_invalidAddress :
    normalizeAddress "0xzz" = .error (.invalidAddress "0xzz") ∧
      (initState.resolveSymbolAsync "0xzz" 0 (.error "network down")).1 =
        .error (.unknownToken "0xzz") := by
  exact ⟨by decide, by decide⟩

/-- C5 amended.  For a malformed `0x`-shaped input whose uppercased form
is not symbol-indexed, the `InvalidAddress` error raised by the
normalizer is surfaced unchanged by the synchronous resolution-layer
operations (`resolveSymbol`, `getDecimals`, `getTokenInfo`) and by
`getTokenByAddress` (which does not consult the remote source, so the
failure is never retried); `resolveSymbolAsync`, however, catches it and
fails with `UnknownToken` echoing the input instead. -/
theorem invalidAddress_propagation :
    ∀ (s : TokenService) (input : String) (now : Nat)
      (r : Except String RemoteToken) (e : TokenError),
      mget s.symbolIndex (toUpperStr input) = none →
      startsWith0x input = true →
      normalizeAddress input = .error e →
      s.resolveSymbol input = .error e ∧
      s.getDecimals input now = .error e ∧
      s.getTokenInfo input now = .error e ∧
      s.getTokenByAddress input now r = (.error e, false) ∧
      (s.resolveSymbolAsync input now r).1 = .error (.unknownToken input) := by
  intro s input now r e hg hx hn
  have hrs : s.resolveSymbol input = .error e := by
    unfold TokenService.resolveSymbol
    rw [hg]
    unfold resolveSymbolRest
    rw [hx, if_pos rfl, hn]
  refine ⟨hrs, ?_, ?_, ?_, ?_⟩
  · unfold TokenService.getDecimals
    rw [hn]
  · unfold TokenService.getTokenInfo
    rw [hx, if_pos rfl, hn]
  · unfold TokenService.getTokenByAddress
    rw [hn]
  · unfold TokenService.resolveSymbolAsync
    rw [hrs, hx]
    simp

/-- Witness for C5 (amended) at the constructor state. -/
theorem invalidAddress_propagation_witness :
    initState.resolveSymbol "0xzz" = .error (.invalidAddress "0xzz") ∧
      initState.getDecimals "0xzz" 3 = .error (.invalidAddress "0xzz") ∧
      (initState.resolveSymbolAsync "0xzz" 3 (.error "down")).1 =
        .error (.unknownToken "0xzz") := by
  have h := invalidAddress_propagation initState "0xzz" 3 (.error "down")
    (.invalidAddress "0xzz") (by decide) (by decide) (by decide)
  exact ⟨h.1, h.2.1, h.2.2.2.2⟩

/-! C6: terminal `NoProviderConfigured` failure. -/

/-- C6.  On a cache miss (or expiry) with a failing remote fetch and no
injected provider, `getDecimalsAsync` fails with the no-provider error,
whose message names the queried address. -/
theorem noProvider_terminal :
    ∀ (s : TokenService) (addr : String) (now : Nat) (msg : String)
      (chain : Except String Nat) (n : String),
      normalizeAddress addr = .ok n →
      s.getDecimals addr now = .ok none →
      s.hasProvider = false →
      (s.getDecimalsAsync addr now (.error msg) chain).1 =
        .error (.noProvider addr) ∧
      (∃ pre post, errMessage (.noProvider addr) = pre ++ addr ++ post) := by
  intro s addr now msg chain n hn hd hp
  have hmiss := getDecimals_none_elim hn hd
  have hg := getTokenByAddress_miss (.error msg) hn hmiss
  constructor
  · unfold TokenService.getDecimalsAsync
    rw [hd]
    simp only [hg, hp]
    simp
  · exact ⟨"Token ",
      " not found and no RPC provider configured for on-chain fallback", rfl⟩

/-- Witness for C6 at the constructor state. -/
theorem noProvider_terminal_witness :
    (initState.getDecimalsAsync "0x1" 0 (.error "network down") (.ok 9)).1 =
      .error (.noProvider "0x1") ∧
      errMessage (.noProvider "0x1") =
        "Token " ++ "0x1" ++
          " not found and no RPC provider configured for on-chain fallback" := by
  have h := noProvider_terminal initState "0x1" 0 "network down" (.ok 9)
    "0x0000000000000000000000000000000000000000000000000000000000000001"
    (by decide) (by decide) (by decide)
  exact ⟨h.1, rfl⟩

/-! C1: static-token protection. -/

/-- C1.  A dynamic write to an address whose cache entry is static
returns the existing static record and leaves the state unchanged
without throwing, whatever the incoming record claims; and a symbol held
in the symbol index by a static record is never reassigned to a
different address by a dynamic write. -/
theorem static_token_protection :
    (∀ (s : TokenService) (t : RemoteToken) (b : Bool) (now : Nat)
        (n : String) (e : CachedToken),
      normalizeAddress t.address = .ok n →
      mget s.cache n = some e → e.isStatic = true →
      s.addToCache t b now = .ok (e, s)) ∧
    (∀ (s : TokenService) (t : RemoteToken) (now : Nat) (U a : String)
        (e c : CachedToken) (s' : TokenService),
      mget s.symbolIndex U = some a → a ≠ "" →
      mget s.cache a = some e → e.isStatic = true →
      s.addToCache t false now = .ok (c, s') →
      mget s'.symbolIndex U = some a) := by
  constructor
  · intro s t b now n e hn hc hs
    unfold TokenService.addToCache
    simp only [hn, hc, hs, if_true]
  · intro s t now U a e c s' hga hane hgc hst hadd
    obtain ⟨n, hn, hcases⟩ := addToCache_ok_elim hadd
    rcases hcases with ⟨e', he', hes', hce', rfl⟩ | ⟨hmiss, heq⟩
    · exact hga
    · have hidx : s'.symbolIndex =
          (if shouldWriteSymbol s.symbolIndex
              (mset s.cache n (mkCachedRecord t false now n))
              (toUpperStr t.symbol) then
            mset s.symbolIndex (toUpperStr t.symbol) n
          else s.symbolIndex) := by
        rw [show s' = (addToCacheCont s t false now n).2 by rw [heq]]
        rfl
      have han : a ≠ n := by
        intro hh
        rw [hh] at hgc
        rcases hmiss with hnone | ⟨e2, he2, hes2⟩
        · rw [hnone] at hgc; exact absurd hgc (by simp)
        · rw [he2] at hgc
          rw [Option.some.inj hgc] at hes2
          rw [hst] at hes2
          exact absurd hes2 (by simp)
      have hgc' : mget (mset s.cache n (mkCachedRecord t false now n)) a = some e := by
        rw [mget_mset_ne _ _ _ _ han]
        exact hgc
      rw [hidx]
      by_cases hw : shouldWriteSymbol s.symbolIndex
          (mset s.cache n (mkCachedRecord t false now n))
          (toUpperStr t.symbol) = true
      · rw [if_pos hw]
        by_cases hU : U = toUpperStr t.symbol
        · exfalso
          rw [← hU] at hw
          rw [shouldWriteSymbol_eq_false hga hane hgc' hst] at hw
          exact absurd hw (by simp)
        · rw [mget_mset_ne _ _ _ _ (fun hh => hU hh)]
          exact hga
      · rw [if_neg hw]
        exact hga

/-- Remote record claiming the static ETH address with wrong metadata. -/
def fakeEthRemote : RemoteToken :=
  { address := "0x049D36570D4E46F48E99674BD3FCC84644DDD6B96F7C741B1562B82F9E004DC7",
    symbol := "WETH", name := "Fake Ether", decimals := 8,
    logoUri := none, lastDailyVolumeUsd := 0, tags := [] }

/-- The static ETH record as it sits in the cache. -/
def ethStaticRecord : CachedToken :=
  { address := ethAddrN, symbol := "ETH", name := "Ether", decimals := 18,
    logoUri := none, lastDailyVolumeUsd := 0, tags := ["Verified"],
    isStatic := true, lastUpdated := 0 }

/-- Remote record at a fresh address claiming the symbol `eTh`, which
uppercases onto the static ETH symbol. -/
def squatterRemote : RemoteToken :=
  { address := "0x1234", symbol := "eTh", name := "Symbol Squatter",
    decimals := 9, logoUri := none, lastDailyVolumeUsd := 0, tags := [] }

/-- Normalized address of `squatterRemote`. -/
def squatAddrN : String :=
  "0x0000000000000000000000000000000000000000000000000000000000001234"

/-- The dynamic record `addToCache` builds for `squatterRemote`. -/
def squatterRecord : CachedToken :=
  { address := squatAddrN, symbol := "eTh", name := "Symbol Squatter",
    decimals := 9, logoUri := none, lastDailyVolumeUsd := 0, tags := [],
    isStatic := false, lastUpdated := 7 }

/-- State after the squatter write: the record is cached at its fresh
address but the static symbol mapping is untouched. -/
def squatterState : TokenService :=
  { cache := staticPairs ++ [(squatAddrN, squatterRecord)],
    symbolIndex := staticSymPairs, hasProvider := false }

/-- Witness for C1: the fake ETH write is absorbed (state and record
unchanged, no error), and the squatter write does not steal the `ETH`
symbol from the static address. -/
theorem static_token_protection_witness :
    initState.addToCache fakeEthRemote false 12345 = .ok (ethStaticRecord, initState) ∧
      mget squatterState.symbolIndex "ETH" = some ethAddrN := by
  constructor
  · exact static_token_protection.1 initState fakeEthRemote false 12345
      ethAddrN ethStaticRecord (by decide) (by decide) (by decide)
  · exact static_token_protection.2 initState squatterRemote 7 "ETH" ethAddrN
      ethStaticRecord squatterRecord squatterState (by decide) (by decide)
      (by decide) (by decide) (by decide)

/-! C2: three-tier fallback ordering of `getDecimalsAsync`. -/

/-- A remote token whose address string cannot be normalized. -/
def badAddrToken : RemoteToken :=
  { address := "zz", symbol := "BAD", name := "Bad Remote", decimals := 7,
    logoUri := none, lastDailyVolumeUsd := 0, tags := [] }

/-- C2 counterexample.  The claim states that whenever the remote fetch
succeeds the on-chain path is never invoked; but when the remote fetch
succeeds with a record whose address cannot be normalized, caching it
throws inside the remote tier, the wrapped error is caught, and the
on-chain path runs anyway: with the remote oracle explicitly `.ok`, the
event trace of the call still contains the on-chain read. -/
theorem remote_success_onchain_invoked :
    (initState.setProvider.getDecimalsAsync "0x1" 0 (.ok badAddrToken)
        (.ok 9)).2 = [CallEvent.remoteFetch, CallEvent.onChainRead] := by
  decide

/-- The remote tier of `getDecimalsAsync` succeeds as a whole: the fetch
returns a record and that record's address normalizes (so caching it
cannot throw). -/
def remoteTierOk (remote : Except String RemoteToken) : Prop :=
  ∃ t n, remote = .ok t ∧ normalizeAddress t.address = .ok n

lemma addToCache_ok_of_norm {s : TokenService} {t : RemoteToken} {b : Bool}
    {now : Nat} {n : String} (hn : normalizeAddress t.address = .ok n) :
    ∃ r, s.addToCache t b now = .ok r := by
  unfold TokenService.addToCache
  simp only [hn]
  cases hc : mget s.cache n with
  | some existing =>
    by_cases hs : existing.isStatic = true
    · exact ⟨(existing, s), by simp [hs]⟩
    · exact ⟨addToCacheCont s t b now n, by simp [hs]⟩
  | none => exact ⟨addToCacheCont s t b now n, rfl⟩

/-- C2 amended.  For an address that is absent from (or expired in) the
cache: the remote source is always consulted first (the event trace
begins with the remote fetch); the on-chain path runs only when the
remote tier fails (the fetch itself throws, or the fetched record's
address is malformed so caching it throws); and when the remote tier
succeeds as a whole the on-chain path is never invoked. -/
theorem getDecimalsAsync_fallback_order :
    ∀ (s : TokenService) (addr : String) (now : Nat)
      (remote : Except String RemoteToken) (chain : Except String Nat)
      (n : String),
      normalizeAddress addr = .ok n →
      s.getDecimals addr now = .ok none →
      ((s.getDecimalsAsync addr now remote chain).2.head? =
        some CallEvent.remoteFetch) ∧
      (CallEvent.onChainRead ∈ (s.getDecimalsAsync addr now remote chain).2 →
        ¬ remoteTierOk remote) ∧
      (remoteTierOk remote →
        (s.getDecimalsAsync addr now remote chain).2 = [CallEvent.remoteFetch]) := by
  intro s addr now remote chain n hn hd
  have hmiss := getDecimals_none_elim hn hd
  have hg := getTokenByAddress_miss remote hn hmiss
  cases remote with
  | error msg =>
    have hnot : ¬ remoteTierOk (Except.error msg) := by
      rintro ⟨t, n', heq, -⟩
      exact absurd heq (by simp)
    unfold TokenService.getDecimalsAsync
    rw [hd]
    simp only [hg]
    by_cases hp : s.hasProvider = false
    · simp only [hp]
      refine ⟨by simp, fun hm => hnot, fun hok => absurd hok hnot⟩
    · simp only [hp]
      cases chain with
      | error m2 =>
        simp only []
        refine ⟨by simp, fun hm => hnot, fun hok => absurd hok hnot⟩
      | ok d =>
        cases hcc : s.cacheOnChainDecimals addr d now with
        | ok s2 =>
          simp only [hcc]
          refine ⟨by simp, fun hm => hnot, fun hok => absurd hok hnot⟩
        | error e2 =>
          simp only [hcc]
          refine ⟨by simp, fun hm => hnot, fun hok => absurd hok hnot⟩
  | ok t =>
    unfold TokenService.getDecimalsAsync
    rw [hd]
    simp only [hg]
    cases hat : s.addToCache t false now with
    | ok r =>
      cases r with
      | mk c s2 =>
        simp only [hat]
        refine ⟨by simp, ?_, fun _ => rfl⟩
        intro hm
        simp at hm
    | error e =>
      have hterr := addToCache_error_elim hat
      have hnot : ¬ remoteTierOk (Except.ok t) := by
        rintro ⟨t', n', heq, hnorm⟩
        rw [← Except.ok.inj heq] at hnorm
        rw [hterr] at hnorm
        exact absurd hnorm (by simp)
      simp only [hat]
      by_cases hp : s.hasProvider = false
      · simp only [hp]
        refine ⟨by simp, fun hm => hnot, fun hok => absurd hok hnot⟩
      · simp only [hp]
        cases chain with
        | error m2 =>
          refine ⟨by simp, fun hm => hnot, fun hok => absurd hok hnot⟩
        | ok d =>
          cases hcc : s.cacheOnChainDecimals addr d now with
          | ok s2 =>
            simp only [hcc]
            refine ⟨by simp, fun hm => hnot, fun hok => absurd hok hnot⟩
          | error e2 =>
            simp only [hcc]
            refine ⟨by simp, fun hm => hnot, fun hok => absurd hok hnot⟩

/-- A well-formed remote record at a fresh address (the spec's `LORDS`
scenario). -/
def lordsRemote : RemoteToken :=
  { address := "0x0124aeb495b947201f5fac96fd1138e326ad86195b98df6dec9009158a533b49",
    symbol := "LORDS", name := "Lords", decimals := 18,
    logoUri := none, lastDailyVolumeUsd := 0, tags := [] }

/-- Witness for C2 (amended): with a failing remote the trace still
starts with the remote fetch, and with a fully successful remote tier
the trace is exactly the remote fetch. -/
theorem getDecimalsAsync_fallback_order_witness :
    ((initState.getDecimalsAsync "0x1" 0 (.error "down") (.ok 9)).2.head? =
      some CallEvent.remoteFetch) ∧
      ((initState.getDecimalsAsync "0x1" 0 (.ok lordsRemote) (.ok 9)).2 =
        [CallEvent.remoteFetch]) := by
  constructor
  · exact (getDecimalsAsync_fallback_order initState "0x1" 0 (.error "down")
      (.ok 9) "0x0000000000000000000000000000000000000000000000000000000000000001"
      (by decide) (by decide)).1
  · exact (getDecimalsAsync_fallback_order initState "0x1" 0 (.ok lordsRemote)
      (.ok 9) "0x0000000000000000000000000000000000000000000000000000000000000001"
      (by decide) (by decide)).2.2
      ⟨lordsRemote, lordsRemote.address, rfl, by decide⟩

/-! C3: balance-input resolution. -/

/-- C3 counterexample.  The claim states that resolving the batch input
never fails on repeated identifiers (e.g. two `ETH` entries); but
`validateTokensInput` rejects exactly that input with the duplicate
error. -/
theorem validateTokensInput_rejects_duplicates :
    validateTokensInput initState ["ETH", "ETH"] =
      .error (.invalidInput "Duplicate tokens in request") := by
  decide

lemma mapExcept_length {f : String → Except TokenError String}
    {l ys : List String} (h : mapExcept f l = .ok ys) :
    ys.length = l.length := by
  induction l generalizing ys with
  | nil =>
    unfold mapExcept at h
    rw [← Except.ok.inj h]
  | cons x xs ih =>
    unfold mapExcept at h
    cases hf : f x with
    | error e => rw [hf] at h; exact absurd h (by simp)
    | ok y =>
      rw [hf] at h
      cases hm : mapExcept f xs with
      | error e => rw [hm] at h; exact absurd h (by simp)
      | ok zs =>
        rw [hm] at h
        rw [← Except.ok.inj h]
        simp [ih hm]

lemma mapExcept_get {f : String → Except TokenError String}
    {l ys : List String} (h : mapExcept f l = .ok ys) :
    ∀ (i : Nat) (h1 : i < l.length) (h2 : i < ys.length),
      f (l.get ⟨i, h1⟩) = .ok (ys.get ⟨i, h2⟩) := by
  induction l generalizing ys with
  | nil => intro i h1; simp at h1
  | cons x xs ih =>
    unfold mapExcept at h
    cases hf : f x with
    | error e => rw [hf] at h; exact absurd h (by simp)
    | ok y =>
      rw [hf] at h
      cases hm : mapExcept f xs with
      | error e => rw [hm] at h; exact absurd h (by simp)
      | ok zs =>
        rw [hm] at h
        rw [← Except.ok.inj h]
        intro i h1 h2
        cases i with
        | zero => simpa using hf
        | succ j =>
          have h1' : j < xs.length := by simpa using h1
          have h2' : j < zs.length := by rw [mapExcept_length hm]; exact h1'
          simpa using ih hm j h1' h2'

lemma distinctLen_le (l : List String) : distinctLen l ≤ l.length := by
  induction l with
  | nil => simp [distinctLen]
  | cons x xs ih =>
    unfold distinctLen
    by_cases h : x ∈ xs <;> simp [h] <;> omega

lemma distinctLen_eq_iff (l : List String) :
    distinctLen l = l.length ↔ l.Nodup := by
  induction l with
  | nil => simp [distinctLen]
  | cons x xs ih =>
    rw [List.nodup_cons]
    unfold distinctLen
    by_cases h : x ∈ xs
    · rw [if_pos h]
      have hle := distinctLen_le xs
      simp only [List.length_cons]
      constructor
      · intro he; exact absurd he (by omega)
      · rintro ⟨hx, -⟩; exact absurd h hx
    · rw [if_neg h]
      simp only [List.length_cons]
      constructor
      · intro he
        exact ⟨h, ih.mp (by omega)⟩
      · rintro ⟨-, hnd⟩
        have := ih.mpr hnd
        omega

/-- C3 amended.  Resolving a non-empty batch within the limit is an
element-wise mapping through `resolveSymbol`: on success it yields one
resolved address per input in input order (no deduplication of the
output list); however, when the resolved addresses contain duplicates
(as for `["ETH", "ETH"]`), `validateTokensInput` rejects the batch with
the duplicate error instead of returning the mapping. -/
theorem validateTokensInput_elementwise :
    ∀ (s : TokenService) (tokens addrs : List String),
      0 < tokens.length → tokens.length ≤ MAX_BATCH_TOKENS →
      mapExcept s.resolveSymbol tokens = .ok addrs →
      (addrs.length = tokens.length ∧
        (∀ (i : Nat) (h1 : i < tokens.length) (h2 : i < addrs.length),
          s.resolveSymbol (tokens.get ⟨i, h1⟩) = .ok (addrs.get ⟨i, h2⟩)) ∧
        (addrs.Nodup → validateTokensInput s tokens = .ok addrs) ∧
        (¬ addrs.Nodup → validateTokensInput s tokens =
          .error (.invalidInput "Duplicate tokens in request"))) := by
  intro s tokens addrs hpos hle hmap
  have hlen := mapExcept_length hmap
  refine ⟨hlen, mapExcept_get hmap, ?_, ?_⟩
  · intro hnd
    have hdl := (distinctLen_eq_iff addrs).mpr hnd
    rw [hlen] at hdl
    unfold validateTokensInput
    rw [if_neg (by omega), if_neg (by omega)]
    simp only [hmap]
    rw [if_neg (fun hcon => hcon hdl)]
  · intro hnd
    unfold validateTokensInput
    rw [if_neg (by omega), if_neg (by omega)]
    simp only [hmap]
    rw [if_pos ?_]
    intro hcontra
    rw [← hlen] at hcontra
    exact hnd ((distinctLen_eq_iff addrs).mp hcontra)

/-- Normalized USDC address, used in witnesses. -/
def usdcAddrN : String :=
  "0x053c91253bc9682c04929ca02ed00b3e423f6710d2ee7e0d5ebb06f3ecf368a8"

/-- Witness for C3 (amended) on a duplicate-free mixed-case batch. -/
theorem validateTokensInput_elementwise_witness :
    validateTokensInput initState ["eth", "USDC"] = .ok [ethAddrN, usdcAddrN] := by
  exact (validateTokensInput_elementwise initState ["eth", "USDC"]
    [ethAddrN, usdcAddrN] (by decide) (by decide) (by decide)).2.2.1 (by decide)

/-! C7: cache exclusivity after `clearDynamicCache`.
    C9: the normalized-key invariant. -/

lemma staticPairs_pairs_nodup : staticPairs.Nodup := by decide

/-- Decidable form of the per-token static symbol-mapping fact. -/
def staticSymOk (t : CachedToken) : Bool :=
  match normalizeAddress t.address with
  | .ok n => decide ((toUpperStr t.symbol, n) ∈ staticSymPairs)
  | .error _ => false

lemma staticSyms_resolve_bool : ∀ t ∈ STATIC_TOKENS, staticSymOk t = true := by
  decide

lemma staticSyms_resolve :
    ∀ t ∈ STATIC_TOKENS, ∃ n, normalizeAddress t.address = .ok n ∧
      (toUpperStr t.symbol, n) ∈ staticSymPairs := by
  intro t ht
  have hb := staticSyms_resolve_bool t ht
  unfold staticSymOk at hb
  cases hn : normalizeAddress t.address with
  | ok n =>
    simp only [hn] at hb
    exact ⟨n, rfl, by simpa using hb⟩
  | error e =>
    simp only [hn] at hb
    exact absurd hb (by simp)

/-- C7.  In every reachable service state, after `clearDynamicCache` the
cache holds exactly the static-registry entries (in particular its size
equals the registry size), the registry's symbol mappings are all still
present, and every static symbol still resolves to its static normalized
address. -/
theorem clearDynamicCache_exclusive :
    ∀ s : TokenService, Reachable s →
      (s.clearDynamicCache.cache.length = STATIC_TOKENS.length) ∧
      (∀ p : String × CachedToken,
        p ∈ s.clearDynamicCache.cache ↔ p ∈ staticPairs) ∧
      (∀ q ∈ staticSymPairs, q ∈ s.clearDynamicCache.symbolIndex) ∧
      (∀ t ∈ STATIC_TOKENS,
        s.clearDynamicCache.resolveSymbol t.symbol = normalizeAddress t.address) := by
  intro s hr
  have hi := inv_reachable hr
  have hi' := inv_clear hi
  obtain ⟨h1', h2', h3', h4', h5', h6', h7'⟩ := hi'
  obtain ⟨h1, h2, h3, h4, h5, h6, h7⟩ := hi
  have hmem : ∀ p : String × CachedToken,
      p ∈ s.clearDynamicCache.cache ↔ p ∈ staticPairs := by
    intro p
    constructor
    · intro hp
      rw [clearDynamicCache_cache] at hp
      have := List.mem_filter.mp hp
      exact h4 p this.1 this.2
    · exact h5' p
  refine ⟨?_, hmem, h7', ?_⟩
  · have hnodc : s.clearDynamicCache.cache.Nodup := List.Nodup.of_map Prod.fst h1'
    have hsub1 : s.clearDynamicCache.cache ⊆ staticPairs := fun p hp =>
      (hmem p).mp hp
    have hsub2 : staticPairs ⊆ s.clearDynamicCache.cache := fun p hp =>
      (hmem p).mpr hp
    have hle1 := (hnodc.subperm hsub1).length_le
    have hle2 := (staticPairs_pairs_nodup.subperm hsub2).length_le
    rw [← staticPairs_length]
    omega
  · intro t ht
    obtain ⟨n, hn, hq⟩ := staticSyms_resolve t ht
    have hqin := h7' (toUpperStr t.symbol, n) hq
    have hget : mget s.clearDynamicCache.symbolIndex (toUpperStr t.symbol) =
        some n := mget_of_mem h2' hqin
    have hane : n ≠ "" :=
      normalizeAddress_ok_ne_empty (normalize_idem hn)
    unfold TokenService.resolveSymbol
    rw [hget]
    show (if n = "" then resolveSymbolRest t.symbol else Except.ok n)
      = normalizeAddress t.address
    rw [if_neg hane, hn]

/-- Witness for C7 at the constructor state. -/
theorem clearDynamicCache_exclusive_witness :
    Reachable initState ∧
      initState.clearDynamicCache.cache.length = STATIC_TOKENS.length ∧
      initState.clearDynamicCache.resolveSymbol "ETH" = .ok ethAddrN := by
  have h := clearDynamicCache_exclusive initState reachable_initState
  refine ⟨reachable_initState, h.1, ?_⟩
  have h4 := h.2.2.2 ethStaticRecord (by decide)
  rw [show ethStaticRecord.symbol = "ETH" from rfl] at h4
  rw [h4]
  decide

/-- C9.  In every reachable service state, every cache key and every
symbol-index value is a normalized address (a fixed point of the
normalizer), each cached record carries its key as its address, and a
synchronous `getDecimals` succeeds for any input form that normalizes to
a cached, unexpired key. -/
theorem normalized_key_invariant :
    ∀ s : TokenService, Reachable s →
      (∀ p ∈ s.cache, normalizeAddress p.1 = .ok p.1 ∧ p.2.address = p.1) ∧
      (∀ p ∈ s.symbolIndex, normalizeAddress p.2 = .ok p.2) ∧
      (∀ (addr n : String) (v : CachedToken) (now : Nat),
        normalizeAddress addr = .ok n → mget s.cache n = some v →
        isExpired v now = false →
        s.getDecimals addr now = .ok (some v.decimals)) := by
  intro s hr
  obtain ⟨h1, h2, h3, h4, h5, h6, h7⟩ := inv_reachable hr
  refine ⟨h3, h6, ?_⟩
  intro addr n v now hn hv hexp
  unfold TokenService.getDecimals
  simp only [hn]
  unfold freshLookup
  simp only [hv, hexp]
  rfl

/-- Witness for C9: at the constructor state, a short mixed-case form of
the static ETH address hits the cache entry stored under the normalized
key. -/
theorem normalized_key_invariant_witness :
    Reachable initState ∧
      initState.getDecimals
        "0x049D36570D4E46F48E99674BD3FCC84644DDD6B96F7C741B1562B82F9E004DC7"
        999999999 = .ok (some 18) := by
  refine ⟨reachable_initState, ?_⟩
  exact (normalized_key_invariant initState reachable_initState).2.2
    "0x049D36570D4E46F48E99674BD3FCC84644DDD6B96F7C741B1562B82F9E004DC7"
    ethAddrN ethStaticRecord 999999999 (by decide) (by decide) (by decide)

/-! C8: idempotent normalization. -/

/-- C8.  `normalizeAddress` is a pure function (it is a Lean function of
its input alone); a successful output re-normalizes to itself
(`normalize(normalize(x)) = normalize(x)`); any two input forms denoting
the same numeric address (short, padded, mixed-case, alternate radix
marker) normalize to the identical output; and every successful output
is the canonical fixed-width form: 66 characters, all lowercase,
starting with `0x`. -/
theorem normalizeAddress_idempotent :
    (∀ x y : String, normalizeAddress x = .ok y → normalizeAddress y = .ok y) ∧
    (∀ (x₁ x₂ : String) (v : Nat), v ≤ ADDR_BOUND →
      toBigIntStr x₁.data = some v → toBigIntStr x₂.data = some v →
      normalizeAddress x₁ = normalizeAddress x₂) ∧
    (∀ x y : String, normalizeAddress x = .ok y →
      y.data.length = 66 ∧ toLowerStr y = y ∧ startsWith0x y = true) := by
  refine ⟨fun x y h => normalize_idem h, ?_, ?_⟩
  · intro x₁ x₂ v hb h1 h2
    unfold normalizeAddress validateAndParseAddress
    simp only [h1, h2, hb, if_true]
  · intro x y h
    obtain ⟨v, hv, hb, hdata⟩ := normalizeAddress_ok_elim h
    refine ⟨?_, ?_, normalizeAddress_ok_startsWith0x h⟩
    · rw [hdata]
      simp [toHex64_length v]
    · have hfix : y.data.map Char.toLower = y.data := by
        rw [hdata]
        simp only [List.map_cons]
        rw [show Char.toLower '0' = '0' by decide,
          show Char.toLower 'x' = 'x' by decide,
          map_id_of_fixed fun c hc => (toHex64_chars v c hc).1]
      show (⟨y.data.map Char.toLower⟩ : String) = y
      rw [hfix]

/-- Witness for C8: idempotence and form-insensitivity at `0x123`. -/
theorem normalizeAddress_idempotent_witness :
    normalizeAddress
        "0x0000000000000000000000000000000000000000000000000000000000000123" =
      .ok "0x0000000000000000000000000000000000000000000000000000000000000123" ∧
      normalizeAddress "0x123" = normalizeAddress "0X0123" := by
  constructor
  · exact normalizeAddress_idempotent.1 "0x123"
      "0x0000000000000000000000000000000000000000000000000000000000000123"
      (by decide)
  · exact normalizeAddress_idempotent.2.1 "0x123" "0X0123" 291
      (by decide) (by decide) (by decide)

/-! C10: on-chain-cached tokens are not symbol-indexed. -/

/-- Normalized form of the demo on-chain address `0xabc123`. -/
def s10addr : String :=
  "0x0000000000000000000000000000000000000000000000000000000000abc123"

/-- Constructor state after one on-chain decimals caching of `0xabc123`. -/
def onChainDemoState : TokenService :=
  { cache := staticPairs ++ [(s10addr, minimalOnChainRecord s10addr 9 0)],
    symbolIndex := staticSymPairs, hasProvider := false }

/-- C10 counterexample.  The claim states that looking the generated
truncated display symbol up again fails with `UnknownToken`
(`resolveSymbol`) and returns absent (`getTokenInfo`); but the truncated
symbol starts with `0x`, so both take the address path and fail with the
normalizer's `InvalidAddress` error instead. -/
theorem onchain_symbol_lookup_not_unknown :
    initState.cacheOnChainDecimals "0xabc123" 9 0 = .ok onChainDemoState ∧
      (minimalOnChainRecord s10addr 9 0).symbol = "0x00000000...abc123" ∧
      onChainDemoState.resolveSymbol "0x00000000...abc123" =
        .error (.invalidAddress "0x00000000...abc123") ∧
      onChainDemoState.getTokenInfo "0x00000000...abc123" 0 =
        .error (.invalidAddress "0x00000000...abc123") := by
  refine ⟨by decide, by decide, by decide, by decide⟩

lemma shortAddr_startsWith0x {s y : String} (h : normalizeAddress s = .ok y) :
    startsWith0x (shortAddr y) = true := by
  obtain ⟨ds, hdata, hlen, -⟩ := normalizeAddress_ok_shape h
  unfold startsWith0x shortAddr
  rw [hdata]
  rfl

/-- C10 amended.  A successful `cacheOnChainDecimals` never touches the
symbol index; when it caches a fresh minimal record, the record sits in
the cache under its normalized address, and looking its truncated
display symbol up fails — with the normalizer's `InvalidAddress` error
(the symbol is `0x`-shaped but contains dots), not with `UnknownToken` —
in `resolveSymbol` (when the symbol is not otherwise indexed) and in
`getTokenInfo`; the record is therefore reachable only by its address. -/
theorem cacheOnChainDecimals_frame :
    ∀ (s : TokenService) (addr : String) (d now : Nat) (s' : TokenService)
      (n : String),
      normalizeAddress addr = .ok n →
      s.cacheOnChainDecimals addr d now = .ok s' →
      s'.symbolIndex = s.symbolIndex ∧
      (mget s.cache n = none →
        mget s'.cache n = some (minimalOnChainRecord n d now) ∧
        (mget s'.symbolIndex (toUpperStr (shortAddr n)) = none →
          s'.resolveSymbol (shortAddr n) =
            .error (.invalidAddress (shortAddr n))) ∧
        s'.getTokenInfo (shortAddr n) now =
          .error (.invalidAddress (shortAddr n))) := by
  intro s addr d now s' n hn h
  have hshort_err := normalize_shortAddr_error hn
  have hshort_0x := shortAddr_startsWith0x hn
  obtain ⟨n', hn', hcases⟩ := cacheOnChain_ok_elim h
  have hnn' : n' = n := Except.ok.inj (hn'.symm.trans hn)
  subst hnn'
  rcases hcases with ⟨hsome, rfl⟩ | ⟨hnone, rfl⟩
  · refine ⟨rfl, ?_⟩
    intro hcon
    rw [hcon] at hsome
    exact absurd hsome (by simp)
  · refine ⟨rfl, fun _ => ⟨?_, ?_, ?_⟩⟩
    · exact mget_mset_self _ _ _
    · intro hidx
      unfold TokenService.resolveSymbol
      rw [hidx]
      unfold resolveSymbolRest
      rw [hshort_0x, if_pos rfl, hshort_err]
    · unfold TokenService.getTokenInfo
      rw [hshort_0x, if_pos rfl]
      simp only [hshort_err]

/-- Witness for C10 (amended) at the constructor state. -/
theorem cacheOnChainDecimals_frame_witness :
    onChainDemoState.symbolIndex = initState.symbolIndex ∧
      mget onChainDemoState.cache s10addr =
        some (minimalOnChainRecord s10addr 9 0) ∧
      onChainDemoState.resolveSymbol (shortAddr s10addr) =
        .error (.invalidAddress (shortAddr s10addr)) := by
  have h := cacheOnChainDecimals_frame initState "0xabc123" 9 0
    onChainDemoState s10addr (by decide) (by decide)
  exact ⟨h.1, (h.2 (by decide)).1, (h.2 (by decide)).2.1 (by decide)⟩

end StarknetTokens
